import Mathlib

/-!
Shallow embedding of the InvenTree front-end table-state hook
(`src/frontend/src/hooks/UseTable.tsx`, `useTable`) and statements of the
specified properties of its operations.

Strings are modelled as lists of characters (`Str`), JavaScript records as a
structure with optional `pk` and `id` fields (a missing field is `none`,
matching `undefined`; strict equality `===` on two missing fields is `true`,
modelled by decidable equality on `Option Int`), and the browser local-storage
collaborator as a partial map from keys to stored values.  The random suffix
produced by `randomId()` is made explicit as an input, so nondeterminism is an
oracle argument rather than hidden state.
-/

namespace InvenTreeTable

/-- Strings, modelled as lists of characters so that concatenation and
character removal are directly computable. -/
abbrev Str := List Char

/-- A table record (`any` in the source).  `pk` and `id` are optional numeric
fields; `none` models a missing (`undefined`) field.  `payload` stands for the
rest of the record's data, so that two records with equal keys can still be
distinguished. -/
structure Rec where
  pk : Option Int
  id : Option Int
  payload : Int
  deriving DecidableEq, Repr

/-- The documented key convention: the record's key is `pk`, falling back to
`id` (the JavaScript expression `r.pk ?? r.id`).  The result may itself be
missing when both fields are. -/
def keyOf (r : Rec) : Option Int :=
  match r.pk with
  | some v => some v
  | none => r.id

/-- An element of the `expandedRecords` array (`any[]` in the source): either
a bare primary-key number or a full record.  JavaScript `includes` uses strict
equality, so a number never equals a record. -/
inductive Entry where
  | num (n : Int)
  | obj (r : Rec)
  deriving DecidableEq, Repr

/-- A table filter.  Modelled from the spec: the source imports `TableFilter`
from `../tables/Filter`, a file not part of this excerpt; the spec describes
filters as `{name, value}` filter specs. -/
structure TableFilter where
  name : Str
  value : Str
  deriving DecidableEq, Repr

/-- The browser local-storage collaborator, restricted to values of one type:
a partial map from string keys to stored values. -/
def Store (α : Type) := Str → Option α

/-- Write a value under a key (`localStorage.setItem`). -/
def Store.write {α : Type} (s : Store α) (k : Str) (v : α) : Store α :=
  fun k' => if k' = k then some v else s k'

/-- Read a value under a key, falling back to a default when the key is absent
(the `defaultValue` behaviour of `useLocalStorage`). -/
def Store.readD {α : Type} (s : Store α) (k : Str) (d : α) : α :=
  (s k).getD d

/-- The empty store: no key has ever been written. -/
def Store.empty {α : Type} : Store α :=
  fun _ => none

/-- Key under which active filters are persisted:
`inventree-table-filters-${tableName}`. -/
def filterKey (tableName : Str) : Str :=
  ("inventree-table-filters-".toList) ++ tableName

/-- Key under which hidden columns are persisted:
`inventree-hidden-table-columns-${tableName}`. -/
def hiddenColumnsKey (tableName : Str) : Str :=
  ("inventree-hidden-table-columns-".toList) ++ tableName

/-- `tableName.replaceAll('-', '')`: remove every hyphen. -/
def sanitizeTableName (tableName : Str) : Str :=
  tableName.filter (fun c => c != '-')

/-- `generateTableName()` from the hook:
`${tableName.replaceAll('-', '')}-${randomId()}`, with the random suffix made
explicit. -/
def generateTableName (tableName suffix : Str) : Str :=
  sanitizeTableName tableName ++ '-' :: suffix

/-- The state owned by one mounted `useTable` instance.  `tableName` is the
hook argument captured by the closure; the remaining fields are the `useState`
/ `useLocalStorage` cells. -/
structure TableState where
  tableName : Str
  tableKey : Str
  isLoading : Bool
  activeFilters : List TableFilter
  expandedRecords : List Entry
  selectedRecords : List Rec
  recordCount : Int
  page : Int
  pageSize : Int
  hiddenColumns : List Str
  searchTerm : Str
  records : List Rec
  editable : Bool
  deriving Repr

/-- Mounting `useTable(tableName)`: a fresh identity token from the sanitized
name and the random suffix, filters and hidden columns rehydrated from local
storage (default `[]`), everything else at its initial value. -/
def mount (tableName suffix : Str) (fs : Store (List TableFilter))
    (cs : Store (List Str)) : TableState :=
  { tableName := tableName
    tableKey := generateTableName tableName suffix
    isLoading := false
    activeFilters := fs.readD (filterKey tableName) []
    expandedRecords := []
    selectedRecords := []
    recordCount := 0
    page := 1
    pageSize := 25
    hiddenColumns := cs.readD (hiddenColumnsKey tableName) []
    searchTerm := []
    records := []
    editable := false }

/-- `refreshTable`: replace the identity token with a freshly generated one. -/
def refreshTable (st : TableState) (suffix : Str) : TableState :=
  { st with tableKey := generateTableName st.tableName suffix }

/-- `setActiveFilters`: replaces the filter list; `useLocalStorage` also
persists the new value under the table's filter key. -/
def setActiveFilters (st : TableState) (fs : Store (List TableFilter))
    (filters : List TableFilter) : TableState × Store (List TableFilter) :=
  ({ st with activeFilters := filters },
    fs.write (filterKey st.tableName) filters)

/-- `clearActiveFilters`: `setActiveFilters([])`. -/
def clearActiveFilters (st : TableState) (fs : Store (List TableFilter)) :
    TableState × Store (List TableFilter) :=
  setActiveFilters st fs []

/-- `setHiddenColumns`: replaces the hidden-column list; persisted under the
table's hidden-column key. -/
def setHiddenColumns (st : TableState) (cs : Store (List Str))
    (columns : List Str) : TableState × Store (List Str) :=
  ({ st with hiddenColumns := columns },
    cs.write (hiddenColumnsKey st.tableName) columns)

/-- `setExpandedRecords`: replaces the expansion collection. -/
def setExpandedRecords (st : TableState) (es : List Entry) : TableState :=
  { st with expandedRecords := es }

/-- `isRowExpanded(pk)`: `expandedRecords.includes(pk)` — strict-equality
membership of the number `pk` in the stored collection. -/
def isRowExpanded (st : TableState) (pk : Int) : Bool :=
  st.expandedRecords.contains (Entry.num pk)

/-- `setSelectedRecords`. -/
def setSelectedRecords (st : TableState) (rs : List Rec) : TableState :=
  { st with selectedRecords := rs }

/-- `clearSelectedRecords`: `setSelectedRecords([])`. -/
def clearSelectedRecords (st : TableState) : TableState :=
  setSelectedRecords st []

/-- Derived `selectedIds`: `selectedRecords.map((r) => r.pk ?? r.id)`. -/
def selectedIds (st : TableState) : List (Option Int) :=
  st.selectedRecords.map keyOf

/-- Derived `hasSelectedRecords`: `selectedRecords.length > 0`. -/
def hasSelectedRecords (st : TableState) : Bool :=
  decide (0 < st.selectedRecords.length)

/-- `setRecordCount`. -/
def setRecordCount (st : TableState) (count : Int) : TableState :=
  { st with recordCount := count }

/-- `setPage`. -/
def setPage (st : TableState) (page : Int) : TableState :=
  { st with page := page }

/-- `setPageSize`. -/
def setPageSize (st : TableState) (pageSize : Int) : TableState :=
  { st with pageSize := pageSize }

/-- `setSearchTerm`. -/
def setSearchTerm (st : TableState) (term : Str) : TableState :=
  { st with searchTerm := term }

/-- `setRecords`: full replacement of the record cache. -/
def setRecords (st : TableState) (rs : List Rec) : TableState :=
  { st with records := rs }

/-- `setIsLoading`. -/
def setIsLoading (st : TableState) (value : Bool) : TableState :=
  { st with isLoading := value }

/-- `setEditable`. -/
def setEditable (st : TableState) (value : Bool) : TableState :=
  { st with editable := value }

/-- `updateRecord` on the record cache:
`findIndex((r) => r.pk === record.pk)`, then replace in place when found,
append otherwise. -/
def updateRecord (records : List Rec) (record : Rec) : List Rec :=
  match records.findIdx? (fun r => r.pk == record.pk) with
  | some index => records.set index record
  | none => records ++ [record]

/-- `updateRecord` as a state transition on the hook state. -/
def updateRecordState (st : TableState) (record : Rec) : TableState :=
  { st with records := updateRecord st.records record }

/-- A sequence of `updateRecord` calls applied in order. -/
def applyUpdates (records : List Rec) (calls : List Rec) : List Rec :=
  calls.foldl updateRecord records

/-! ### Equation lemmas for `updateRecord` -/

theorem updateRecord_nil (r : Rec) : updateRecord [] r = [r] :=
  rfl

theorem updateRecord_cons_pos (c : Rec) (cs : List Rec) (r : Rec)
    (h : c.pk = r.pk) : updateRecord (c :: cs) r = r :: cs := by
  simp [updateRecord, List.findIdx?_cons, h]

theorem updateRecord_cons_neg (c : Rec) (cs : List Rec) (r : Rec)
    (h : c.pk ≠ r.pk) : updateRecord (c :: cs) r = c :: updateRecord cs r := by
  have hb : (c.pk == r.pk) = false := by simpa using h
  unfold updateRecord
  rw [List.findIdx?_cons, hb, if_neg (by simp), List.findIdx?_succ]
  cases hf : List.findIdx? (fun x => x.pk == r.pk) cs with
  | none => simp
  | some i => simp [List.set_cons_succ]

/-- When no cached record's `pk` strictly equals the new record's `pk`, the
record is appended at the end. -/
theorem updateRecord_of_not_mem (l : List Rec) (r : Rec)
    (h : ∀ c ∈ l, c.pk ≠ r.pk) : updateRecord l r = l ++ [r] := by
  induction l with
  | nil => rfl
  | cons c cs ih =>
    rw [updateRecord_cons_neg c cs r (h c (by simp))]
    simp [ih (fun x hx => h x (by simp [hx]))]

/-- When the cache decomposes as `l1 ++ c :: l2` with `c` the first record
whose `pk` matches, `c` is replaced in place. -/
theorem updateRecord_replace (l1 : List Rec) (c : Rec) (l2 : List Rec)
    (r : Rec) (h1 : ∀ x ∈ l1, x.pk ≠ r.pk) (hc : c.pk = r.pk) :
    updateRecord (l1 ++ c :: l2) r = l1 ++ r :: l2 := by
  induction l1 with
  | nil => simpa using updateRecord_cons_pos c l2 r hc
  | cons a l1 ih =>
    rw [List.cons_append, updateRecord_cons_neg a _ r (h1 a (by simp)),
      ih (fun x hx => h1 x (by simp [hx])), List.cons_append]

/-- Every `pk` present after an upsert is either the new record's `pk` or one
already present. -/
theorem mem_pk_updateRecord (l : List Rec) (r : Rec) (x : Option Int)
    (hx : x ∈ (updateRecord l r).map Rec.pk) :
    x = r.pk ∨ x ∈ l.map Rec.pk := by
  induction l with
  | nil => simpa [updateRecord] using hx
  | cons c cs ih =>
    by_cases hpk : c.pk = r.pk
    · rw [updateRecord_cons_pos c cs r hpk] at hx
      simp at hx
      rcases hx with hx | hx
      · exact Or.inl hx
      · exact Or.inr (by simp [hx])
    · rw [updateRecord_cons_neg c cs r hpk] at hx
      simp at hx
      rcases hx with hx | hx
      · exact Or.inr (by simp [hx])
      · rcases ih (by simpa using hx) with h | h
        · exact Or.inl h
        · exact Or.inr (by simp [h])

/-- Upserting preserves uniqueness of the `pk` values. -/
theorem nodup_pk_updateRecord (l : List Rec) (r : Rec)
    (h : (l.map Rec.pk).Nodup) : ((updateRecord l r).map Rec.pk).Nodup := by
  induction l with
  | nil => simp [updateRecord]
  | cons c cs ih =>
    simp only [List.map_cons, List.nodup_cons] at h
    by_cases hpk : c.pk = r.pk
    · rw [updateRecord_cons_pos c cs r hpk]
      simp only [List.map_cons, List.nodup_cons]
      exact ⟨hpk ▸ h.1, h.2⟩
    · rw [updateRecord_cons_neg c cs r hpk]
      simp only [List.map_cons, List.nodup_cons]
      refine ⟨?_, ih h.2⟩
      intro hmem
      rcases mem_pk_updateRecord cs r c.pk hmem with h1 | h1
      · exact hpk h1
      · exact h.1 h1

/-- Any sequence of upserts preserves uniqueness of the `pk` values. -/
theorem nodup_pk_applyUpdates (l : List Rec) (calls : List Rec)
    (h : (l.map Rec.pk).Nodup) :
    ((applyUpdates l calls).map Rec.pk).Nodup := by
  induction calls generalizing l with
  | nil => simpa [applyUpdates] using h
  | cons c cs ih => exact ih _ (nodup_pk_updateRecord l c h)

/-! ### Concrete records used to instantiate the theorems -/

/-- A cache of two records with distinct `pk` values. -/
def demoCache : List Rec := [⟨some 1, none, 10⟩, ⟨some 2, none, 20⟩]

/-- Two update calls: one hitting `pk = 1`, one with the fresh `pk = 3`. -/
def demoCalls : List Rec := [⟨some 1, none, 11⟩, ⟨some 3, none, 30⟩]

/-- An update for the existing `pk = 2`. -/
def demoUpd : Rec := ⟨some 2, none, 21⟩

/-- A record with a `pk` and no `id`. -/
def pkOne : Rec := ⟨some 1, none, 3⟩

/-- A record lacking `pk`, with `id = 5`. -/
def pkLessA : Rec := ⟨none, some 5, 0⟩

/-- A record lacking `pk`, with `id = 7`. -/
def pkLessB : Rec := ⟨none, some 7, 0⟩

/-- An update lacking `pk`, with `id = 7`: under the `pk`-falling-back-to-`id`
convention its key equals `pkLessB`'s. -/
def pkLessUpd : Rec := ⟨none, some 7, 1⟩

/-! ### C1 -/

/-- C1: for every record cache whose `pk` values are pairwise distinct and
every sequence of `updateRecord` calls, the result has exactly one entry per
distinct `pk`; a call whose `pk` equals that of a cached entry replaces that
entry in place (position and the order of all other entries preserved), and a
call whose `pk` matches no cached entry appends the record at the end. -/
theorem updateRecord_unique_upsert (records calls : List Rec) (r : Rec)
    (hu : (records.map Rec.pk).Nodup) :
    ((applyUpdates records calls).map Rec.pk).Nodup ∧
    (∀ l1 c l2, records = l1 ++ c :: l2 → c.pk = r.pk →
      updateRecord records r = l1 ++ r :: l2) ∧
    ((∀ c ∈ records, c.pk ≠ r.pk) →
      updateRecord records r = records ++ [r]) := by
  refine ⟨nodup_pk_applyUpdates records calls hu, ?_,
    fun h => updateRecord_of_not_mem records r h⟩
  intro l1 c l2 hdec hc
  subst hdec
  refine updateRecord_replace l1 c l2 r ?_ hc
  intro x hx hEq
  rw [List.map_append, List.map_cons, List.nodup_append] at hu
  exact hu.2.2 (List.mem_map_of_mem Rec.pk hx) (by simp [hEq, hc])

/-- Witness for C1 at a concrete cache and call sequence. -/
theorem updateRecord_unique_upsert_witness :
    ((applyUpdates demoCache demoCalls).map Rec.pk).Nodup ∧
    (∀ l1 c l2, demoCache = l1 ++ c :: l2 → c.pk = demoUpd.pk →
      updateRecord demoCache demoUpd = l1 ++ demoUpd :: l2) ∧
    ((∀ c ∈ demoCache, c.pk ≠ demoUpd.pk) →
      updateRecord demoCache demoUpd = demoCache ++ [demoUpd]) :=
  updateRecord_unique_upsert demoCache demoCalls demoUpd (by decide)

/-! ### C2 -/

/-- C2 counterexample: `updateRecord` does not use the `pk`-falling-back-to-
`id` convention.  With cache `[pkLessA, pkLessB]` (both lacking `pk`, ids 5
and 7) and update `pkLessUpd` (no `pk`, `id = 7`), the code replaces the
first `pk`-less entry `pkLessA`, not the `id`-matching `pkLessB`, leaving two
entries whose conventional key is `7`. -/
theorem updateRecord_id_fallback_cex :
    updateRecord [pkLessA, pkLessB] pkLessUpd = [pkLessUpd, pkLessB] ∧
    updateRecord [pkLessA, pkLessB] pkLessUpd ≠ [pkLessA, pkLessUpd] ∧
    (updateRecord [pkLessA, pkLessB] pkLessUpd).map keyOf =
      [some 7, some 7] := by
  decide

/-- C2 amended: `updateRecord` identifies records by strict equality on `pk`
alone (a missing `pk` compares equal to a missing `pk`), never consulting
`id`: when the update and a cached record both lack `pk`, the call replaces
the first cached record lacking `pk` in place, regardless of `id` values. -/
theorem updateRecord_matches_pk_only (records : List Rec) (r : Rec)
    (l1 : List Rec) (c : Rec) (l2 : List Rec)
    (hdec : records = l1 ++ c :: l2) (hr : r.pk = none) (hc : c.pk = none)
    (hl1 : ∀ x ∈ l1, x.pk ≠ none) :
    updateRecord records r = l1 ++ r :: l2 := by
  subst hdec
  refine updateRecord_replace l1 c l2 r ?_ (by rw [hc, hr])
  intro x hx
  rw [hr]
  exact hl1 x hx

/-- Witness for the amended C2. -/
theorem updateRecord_matches_pk_only_witness :
    updateRecord [pkOne, pkLessB] pkLessUpd = [pkOne] ++ pkLessUpd :: [] :=
  updateRecord_matches_pk_only [pkOne, pkLessB] pkLessUpd [pkOne] pkLessB []
    (by decide) rfl rfl (by decide)

/-! ### C10 -/

/-- C10: records lacking `pk` share one key under `updateRecord`: if the
update lacks `pk` and some cached record lacks `pk`, the first `pk`-less
cached record is replaced in place (`undefined === undefined` is true) and
nothing is appended. -/
theorem updateRecord_pkless_shared_key (records : List Rec) (r : Rec)
    (hr : r.pk = none) (hex : ∃ c ∈ records, c.pk = none) :
    updateRecord records r =
      records.set (records.findIdx (fun c => c.pk == none)) r ∧
    (updateRecord records r).length = records.length := by
  induction records with
  | nil => simp at hex
  | cons c cs ih =>
    by_cases hc : c.pk = none
    · rw [updateRecord_cons_pos c cs r (by rw [hc, hr])]
      have hb : (c.pk == none) = true := by simpa using hc
      constructor
      · simp [List.findIdx_cons, hb]
      · simp
    · have hex' : ∃ x ∈ cs, x.pk = none := by
        rcases hex with ⟨x, hx, hxpk⟩
        rcases List.mem_cons.mp hx with h | h
        · exact absurd (h ▸ hxpk) hc
        · exact ⟨x, h, hxpk⟩
      have hne : c.pk ≠ r.pk := by rw [hr]; exact hc
      rw [updateRecord_cons_neg c cs r hne]
      obtain ⟨ih1, ih2⟩ := ih hex'
      have hb : (c.pk == none) = false := by simpa using hc
      constructor
      · rw [ih1]
        simp [List.findIdx_cons, hb, List.set_cons_succ]
      · simp [ih2]

/-- Witness for C10: the first `pk`-less record (`pkLessA`, index 1) is
replaced. -/
theorem updateRecord_pkless_shared_key_witness :
    updateRecord [pkOne, pkLessA, pkLessB] pkLessUpd =
      ([pkOne, pkLessA, pkLessB]).set
        (([pkOne, pkLessA, pkLessB]).findIdx (fun c => c.pk == none))
        pkLessUpd ∧
    (updateRecord [pkOne, pkLessA, pkLessB] pkLessUpd).length =
      ([pkOne, pkLessA, pkLessB] : List Rec).length :=
  updateRecord_pkless_shared_key [pkOne, pkLessA, pkLessB] pkLessUpd rfl
    (by decide)

/-! ### Concrete names, suffixes and stored values -/

/-- The table name used in the spec's fresh-mount scenario. -/
def partsName : Str := "parts".toList

/-- A hyphenated table name used by a real call site. -/
def salesName : Str := "sales-order-line-item".toList

/-- A concrete random suffix. -/
def suffixA : Str := "abc".toList

/-- Another concrete random suffix, distinct from `suffixA`. -/
def suffixB : Str := "xyz".toList

/-- A concrete filter list. -/
def demoFilters : List TableFilter := [⟨("allocated".toList), ("true".toList)⟩]

/-- A concrete hidden-column list. -/
def demoCols : List Str := [("notes".toList)]

/-- Boolean prefix test on character lists, used to state that a generated
identity token does not begin with the literal table name. -/
def strStartsWith : Str → Str → Bool
  | [], _ => true
  | _ :: _, [] => false
  | p :: ps, c :: cs => p == c && strStartsWith ps cs

/-! ### C3 -/

/-- C3: after `setExpandedRecords(es)`, `isRowExpanded(pk)` returns true if
and only if the primary-key value `pk` is itself a member of the collection
`es` as last set. -/
theorem isRowExpanded_membership (st : TableState) (es : List Entry)
    (pk : Int) :
    isRowExpanded (setExpandedRecords st es) pk = true ↔ Entry.num pk ∈ es := by
  simp [isRowExpanded, setExpandedRecords]

/-! ### C4 -/

/-- C4 counterexample: the identity token is built from an unconstrained
random suffix, so when the suffix repeats, `refreshTable` yields a token
equal to the previous one — the new token is not always different. -/
theorem refreshTable_same_suffix_cex :
    (refreshTable (mount partsName suffixA Store.empty Store.empty)
        suffixA).tableKey =
      (mount partsName suffixA Store.empty Store.empty).tableKey :=
  rfl

/-- C4 amended: every `refreshTable()` call replaces `tableKey`, and the new
token differs from the previous one whenever the freshly drawn random suffix
differs from the one behind the previous token (collision-resistant rather
than guaranteed-distinct); this holds at every step of any sequence of
consecutive calls. -/
theorem refreshTable_fresh_suffix_distinct (st : TableState) (s1 s2 : Str)
    (h : s1 ≠ s2) :
    (refreshTable (refreshTable st s1) s2).tableKey ≠
      (refreshTable st s1).tableKey := by
  intro hEq
  apply h
  simp only [refreshTable, generateTableName] at hEq
  have h2 := List.append_cancel_left hEq
  injection h2 with _ h3
  exact h3.symm

/-- Witness for the amended C4. -/
theorem refreshTable_fresh_suffix_distinct_witness :
    (refreshTable
        (refreshTable (mount partsName suffixA Store.empty Store.empty)
          suffixA)
        suffixB).tableKey ≠
      (refreshTable (mount partsName suffixA Store.empty Store.empty)
          suffixA).tableKey :=
  refreshTable_fresh_suffix_distinct
    (mount partsName suffixA Store.empty Store.empty) suffixA suffixB
    (by decide)

/-! ### C5 -/

/-- C5: filters and hidden columns are persisted under the keys
`inventree-table-filters-<tableName>` and
`inventree-hidden-table-columns-<tableName>`; a value written by
`setActiveFilters` or `setHiddenColumns` is read back unchanged by a remount
with the same table name, and a mount with a previously-unseen table name
reads the default `[]`. -/
theorem persisted_state_roundtrip (tn s1 s2 : Str)
    (fs : Store (List TableFilter)) (cs : Store (List Str))
    (filters : List TableFilter) (cols : List Str)
    (hfu : fs (filterKey tn) = none)
    (hcu : cs (hiddenColumnsKey tn) = none) :
    (setActiveFilters (mount tn s1 fs cs) fs filters).2 (filterKey tn) =
      some filters ∧
    (mount tn s2 (setActiveFilters (mount tn s1 fs cs) fs filters).2
        cs).activeFilters = filters ∧
    (setHiddenColumns (mount tn s1 fs cs) cs cols).2 (hiddenColumnsKey tn) =
      some cols ∧
    (mount tn s2 fs
        (setHiddenColumns (mount tn s1 fs cs) cs cols).2).hiddenColumns =
      cols ∧
    (mount tn s2 fs cs).activeFilters = [] ∧
    (mount tn s2 fs cs).hiddenColumns = [] := by
  refine ⟨?_, ?_, ?_, ?_, ?_, ?_⟩ <;>
    simp [mount, setActiveFilters, setHiddenColumns, Store.write,
      Store.readD, hfu, hcu]

/-- Witness for C5 on an empty store. -/
theorem persisted_state_roundtrip_witness :
    (setActiveFilters (mount partsName suffixA Store.empty Store.empty)
        Store.empty demoFilters).2 (filterKey partsName) =
      some demoFilters ∧
    (mount partsName suffixB
        (setActiveFilters (mount partsName suffixA Store.empty Store.empty)
          Store.empty demoFilters).2
        Store.empty).activeFilters = demoFilters ∧
    (setHiddenColumns (mount partsName suffixA Store.empty Store.empty)
        Store.empty demoCols).2 (hiddenColumnsKey partsName) =
      some demoCols ∧
    (mount partsName suffixB Store.empty
        (setHiddenColumns (mount partsName suffixA Store.empty Store.empty)
          Store.empty demoCols).2).hiddenColumns = demoCols ∧
    (mount partsName suffixB Store.empty Store.empty).activeFilters = [] ∧
    (mount partsName suffixB Store.empty Store.empty).hiddenColumns = [] :=
  persisted_state_roundtrip partsName suffixA suffixB Store.empty Store.empty
    demoFilters demoCols rfl rfl

/-! ### C6 -/

/-- C6: a fresh mount with table name `parts` and no persisted state for that
name yields `tableKey = parts-<suffix>`, `page = 1`, `pageSize = 25`,
`records = []` and `recordCount = 0`. -/
theorem mount_parts_defaults (suffix : Str)
    (fs : Store (List TableFilter)) (cs : Store (List Str))
    (_hfu : fs (filterKey partsName) = none)
    (_hcu : cs (hiddenColumnsKey partsName) = none) :
    (mount partsName suffix fs cs).tableKey = partsName ++ '-' :: suffix ∧
    (mount partsName suffix fs cs).page = 1 ∧
    (mount partsName suffix fs cs).pageSize = 25 ∧
    (mount partsName suffix fs cs).records = [] ∧
    (mount partsName suffix fs cs).recordCount = 0 :=
  ⟨rfl, rfl, rfl, rfl, rfl⟩

/-- Witness for C6. -/
theorem mount_parts_defaults_witness :
    (mount partsName suffixA Store.empty Store.empty).tableKey =
      partsName ++ '-' :: suffixA ∧
    (mount partsName suffixA Store.empty Store.empty).page = 1 ∧
    (mount partsName suffixA Store.empty Store.empty).pageSize = 25 ∧
    (mount partsName suffixA Store.empty Store.empty).records = [] ∧
    (mount partsName suffixA Store.empty Store.empty).recordCount = 0 :=
  mount_parts_defaults suffixA Store.empty Store.empty rfl rfl

/-! ### C7 -/

/-- C7: `selectedIds` is the map of the selected records to their key (`pk`
falling back to `id`) and `hasSelectedRecords` is true exactly when the
selection is non-empty; in particular both are empty/false after
`setSelectedRecords([])`. -/
theorem selection_derived_state (st : TableState) (rs : List Rec) :
    selectedIds (setSelectedRecords st []) = [] ∧
    hasSelectedRecords (setSelectedRecords st []) = false ∧
    selectedIds (setSelectedRecords st rs) = rs.map keyOf ∧
    (hasSelectedRecords (setSelectedRecords st rs) = true ↔ rs ≠ []) := by
  refine ⟨rfl, rfl, rfl, ?_⟩
  simp [hasSelectedRecords, setSelectedRecords, List.length_pos]

/-! ### C8 -/

/-- C8: `setRecordCount`, `setPage`, `setPageSize`, `setIsLoading` and
`setEditable` each change only their own field and leave every other state
field unchanged; in particular `setPageSize` does not reset `page`. -/
theorem setters_frame (st : TableState) (count pg psz : Int) (b e : Bool) :
    ((setRecordCount st count).recordCount = count ∧
      (setRecordCount st count).tableName = st.tableName ∧
      (setRecordCount st count).tableKey = st.tableKey ∧
      (setRecordCount st count).isLoading = st.isLoading ∧
      (setRecordCount st count).activeFilters = st.activeFilters ∧
      (setRecordCount st count).expandedRecords = st.expandedRecords ∧
      (setRecordCount st count).selectedRecords = st.selectedRecords ∧
      (setRecordCount st count).page = st.page ∧
      (setRecordCount st count).pageSize = st.pageSize ∧
      (setRecordCount st count).hiddenColumns = st.hiddenColumns ∧
      (setRecordCount st count).searchTerm = st.searchTerm ∧
      (setRecordCount st count).records = st.records ∧
      (setRecordCount st count).editable = st.editable) ∧
    ((setPage st pg).page = pg ∧
      (setPage st pg).tableName = st.tableName ∧
      (setPage st pg).tableKey = st.tableKey ∧
      (setPage st pg).isLoading = st.isLoading ∧
      (setPage st pg).activeFilters = st.activeFilters ∧
      (setPage st pg).expandedRecords = st.expandedRecords ∧
      (setPage st pg).selectedRecords = st.selectedRecords ∧
      (setPage st pg).recordCount = st.recordCount ∧
      (setPage st pg).pageSize = st.pageSize ∧
      (setPage st pg).hiddenColumns = st.hiddenColumns ∧
      (setPage st pg).searchTerm = st.searchTerm ∧
      (setPage st pg).records = st.records ∧
      (setPage st pg).editable = st.editable) ∧
    ((setPageSize st psz).pageSize = psz ∧
      (setPageSize st psz).tableName = st.tableName ∧
      (setPageSize st psz).tableKey = st.tableKey ∧
      (setPageSize st psz).isLoading = st.isLoading ∧
      (setPageSize st psz).activeFilters = st.activeFilters ∧
      (setPageSize st psz).expandedRecords = st.expandedRecords ∧
      (setPageSize st psz).selectedRecords = st.selectedRecords ∧
      (setPageSize st psz).recordCount = st.recordCount ∧
      (setPageSize st psz).page = st.page ∧
      (setPageSize st psz).hiddenColumns = st.hiddenColumns ∧
      (setPageSize st psz).searchTerm = st.searchTerm ∧
      (setPageSize st psz).records = st.records ∧
      (setPageSize st psz).editable = st.editable) ∧
    ((setIsLoading st b).isLoading = b ∧
      (setIsLoading st b).tableName = st.tableName ∧
      (setIsLoading st b).tableKey = st.tableKey ∧
      (setIsLoading st b).activeFilters = st.activeFilters ∧
      (setIsLoading st b).expandedRecords = st.expandedRecords ∧
      (setIsLoading st b).selectedRecords = st.selectedRecords ∧
      (setIsLoading st b).recordCount = st.recordCount ∧
      (setIsLoading st b).page = st.page ∧
      (setIsLoading st b).pageSize = st.pageSize ∧
      (setIsLoading st b).hiddenColumns = st.hiddenColumns ∧
      (setIsLoading st b).searchTerm = st.searchTerm ∧
      (setIsLoading st b).records = st.records ∧
      (setIsLoading st b).editable = st.editable) ∧
    ((setEditable st e).editable = e ∧
      (setEditable st e).tableName = st.tableName ∧
      (setEditable st e).tableKey = st.tableKey ∧
      (setEditable st e).isLoading = st.isLoading ∧
      (setEditable st e).activeFilters = st.activeFilters ∧
      (setEditable st e).expandedRecords = st.expandedRecords ∧
      (setEditable st e).selectedRecords = st.selectedRecords ∧
      (setEditable st e).recordCount = st.recordCount ∧
      (setEditable st e).page = st.page ∧
      (setEditable st e).pageSize = st.pageSize ∧
      (setEditable st e).hiddenColumns = st.hiddenColumns ∧
      (setEditable st e).searchTerm = st.searchTerm ∧
      (setEditable st e).records = st.records) := by
  simp [setRecordCount, setPage, setPageSize, setIsLoading, setEditable]

/-! ### C9 -/

/-- C9 counterexample: the non-prefix property does not hold for every
hyphenated table name.  The name `a-` contains a hyphen, yet it sanitizes to
`a`, so the generated token `a-<suffix>` does begin with the literal table
name `a-`. -/
theorem tokenPrefix_hyphen_cex :
    '-' ∈ ("a-".toList : Str) ∧
    strStartsWith ("a-".toList) (generateTableName ("a-".toList) suffixA) =
      true := by
  decide

/-- C9 amended: the identity token generated on mount and by every
`refreshTable()` call is the table name with all hyphens removed, followed by
`-` and the random suffix; for the hyphenated call-site name
`sales-order-line-item` (though not for every hyphenated name) the token
therefore never begins with the literal table name, while the two
persistence keys retain the hyphenated name. -/
theorem tableKey_sanitized_name (name suffix : Str) (st : TableState)
    (fs : Store (List TableFilter)) (cs : Store (List Str)) :
    (mount name suffix fs cs).tableKey =
      sanitizeTableName name ++ '-' :: suffix ∧
    (refreshTable st suffix).tableKey =
      sanitizeTableName st.tableName ++ '-' :: suffix ∧
    generateTableName salesName suffix =
      ("salesorderlineitem".toList) ++ '-' :: suffix ∧
    strStartsWith salesName (generateTableName salesName suffix) = false ∧
    filterKey salesName =
      ("inventree-table-filters-sales-order-line-item".toList) ∧
    hiddenColumnsKey salesName =
      ("inventree-hidden-table-columns-sales-order-line-item".toList) :=
  ⟨rfl, rfl, rfl, rfl, rfl, rfl⟩

end InvenTreeTable
